import Mathlib

/-!
Verification of the dependency-ordered task-graph design implicit in
`airflow/contrib/example_dags/example_gcp_vision.py`.

The Python file is declarative: it instantiates operator objects (TaskNodes)
and declares ordering edges between them with the `>>` chaining syntax.
The graph-construction API, topological executor, result store and
task-execution contract live in the external orchestration framework, which
is not part of the repository's sources; those parts are modelled from the
specification, as marked on each definition.  The concrete task nodes, their
operation kinds, resource identifiers (explicit strings or references that
pull a prior task's output by name) and the edge chains are translated
directly from the Python source.
-/

set_option autoImplicit false

namespace GcpVisionDag

/-- Modelled from the spec: the operation kind of a task node, one of
Create, Get, Update, Delete (section 3, TaskNode data model). -/
inductive OpKind where
  | create
  | get
  | update
  | delete
  deriving DecidableEq, Repr

/-- Modelled from the spec: a resource identifier is either an explicit
literal string, a reference to exactly one upstream task's output (the
source's `xcom_pull('task_name')` templating), or left to be generated by
the external collaborator (the source's create operators without an
explicit id). -/
inductive ResId where
  | explicitId (s : String)
  | reference (task : String)
  | autogen
  deriving DecidableEq, Repr

/-- Modelled from the spec: a TaskNode wraps a unit of work with a unique
name, an operation kind, a resource identifier and an opaque key/value
payload (section 3). -/
structure TaskNode where
  name : String
  op : OpKind
  rid : ResId
  payload : List (String × String)
  deriving DecidableEq, Repr

/-- Modelled from the spec: the dependency graph is a list of registered
task nodes (in insertion order) together with a list of directed edges
(upstream name, downstream name) meaning "must complete successfully
before" (sections 2 and 3). -/
structure Graph where
  nodes : List TaskNode
  edges : List (String × String)
  deriving DecidableEq, Repr

/-- Modelled from the spec: the error taxonomy of section 7. -/
inductive Err where
  | duplicateNameError
  | unknownNodeError
  | cycleError
  | unresolvedReferenceError
  | notFoundError
  | operationFailedError
  deriving DecidableEq, Repr

/-- The names of the registered nodes, in insertion order. -/
def nodeNames (g : Graph) : List String :=
  g.nodes.map TaskNode.name

/-- A node name is registered in the graph. -/
def hasNode (g : Graph) (n : String) : Prop :=
  n ∈ nodeNames g

instance (g : Graph) (n : String) : Decidable (hasNode g n) := by
  unfold hasNode
  infer_instance

/-- Modelled from the spec: `addTask(node)` registers a TaskNode, failing
with a DuplicateNameError if the name already exists (section 4.1). -/
def addTask (g : Graph) (n : TaskNode) : Except Err Graph :=
  if hasNode g n.name then .error .duplicateNameError
  else .ok ⟨g.nodes ++ [n], g.edges⟩

/-- A node is ready for emission: not yet emitted, and every upstream
endpoint of an edge into it has already been emitted. -/
def ready (g : Graph) (done : List String) (n : String) : Bool :=
  !(done.contains n) && g.edges.all (fun e => e.2 != n || done.contains e.1)

/-- The next node to emit: the first node in insertion order that is ready
(this is the spec's tie-break by insertion order). -/
def pickNext (g : Graph) (done : List String) : Option String :=
  (nodeNames g).find? (ready g done)

/-- Modelled from the spec: fuel-based worker for `topologicalOrder()`;
repeatedly emits the first ready node in insertion order, and succeeds
only when every registered node has been emitted (section 4.1). -/
def topoAux (g : Graph) : Nat → List String → Option (List String)
  | 0, done => if done.length = g.nodes.length then some done else none
  | fuel + 1, done =>
    match pickNext g done with
    | none => if done.length = g.nodes.length then some done else none
    | some n => topoAux g fuel (done ++ [n])

/-- Modelled from the spec: `topologicalOrder()` returns a deterministic
ordering of all nodes consistent with all edges, breaking ties by
insertion order; it returns `none` exactly when no such complete ordering
exists (section 4.1). -/
def topologicalOrder (g : Graph) : Option (List String) :=
  topoAux g g.nodes.length []

/-- Modelled from the spec: `addEdge(upstream, downstream)` fails with
UnknownNodeError if either endpoint is unregistered, and with CycleError
if adding the edge would create a cycle, detected by full topological
validation of the extended graph (section 4.1). -/
def addEdge (g : Graph) (u d : String) : Except Err Graph :=
  if hasNode g u ∧ hasNode g d then
    match topologicalOrder ⟨g.nodes, g.edges ++ [(u, d)]⟩ with
    | some _ => .ok ⟨g.nodes, g.edges ++ [(u, d)]⟩
    | none => .error .cycleError
  else .error .unknownNodeError

/-- State-passing view of `addTask`: on error the graph is returned
unchanged, so "no partial graph is built" is a literal equation. -/
def addTaskRun (g : Graph) (n : TaskNode) : Graph × Option Err :=
  match addTask g n with
  | .ok g' => (g', none)
  | .error e => (g, some e)

/-- State-passing view of `addEdge`: on error the graph is returned
unchanged. -/
def addEdgeRun (g : Graph) (u d : String) : Graph × Option Err :=
  match addEdge g u d with
  | .ok g' => (g', none)
  | .error e => (g, some e)

/-- `u` occurs in the list strictly before an occurrence of `d`. -/
def appearsBefore (L : List String) (u d : String) : Prop :=
  ∃ r₁ r₂, L = r₁ ++ u :: r₂ ∧ d ∈ r₂

/-- Reachability along one or more edges of the graph. -/
inductive Reaches (g : Graph) : String → String → Prop
  | single {u d : String} : (u, d) ∈ g.edges → Reaches g u d
  | tail {u v d : String} : Reaches g u v → (v, d) ∈ g.edges → Reaches g u d

/-- Every edge of the graph has both endpoints registered (an invariant of
all graphs built through `addTask`/`addEdge`). -/
def edgesRegistered (g : Graph) : Prop :=
  ∀ e ∈ g.edges, e.1 ∈ nodeNames g ∧ e.2 ∈ nodeNames g

instance (g : Graph) : Decidable (edgesRegistered g) := by
  unfold edgesRegistered
  infer_instance

open List

theorem ready_spec {g : Graph} {done : List String} {n : String}
    (h : ready g done n = true) :
    n ∉ done ∧ ∀ u d : String, (u, d) ∈ g.edges → d = n → u ∈ done := by
  unfold ready at h
  rw [Bool.and_eq_true] at h
  obtain ⟨h1, h2⟩ := h
  constructor
  · simpa using h1
  · intro u d hmem hdn
    rw [List.all_eq_true] at h2
    have := h2 (u, d) hmem
    rw [Bool.or_eq_true] at this
    rcases this with hne | hc
    · exact absurd hdn (by simpa using hne)
    · simpa using hc

theorem pickNext_ready {g : Graph} {done : List String} {n : String}
    (h : pickNext g done = some n) : ready g done n = true :=
  List.find?_some h

theorem pickNext_mem {g : Graph} {done : List String} {n : String}
    (h : pickNext g done = some n) : n ∈ nodeNames g :=
  List.mem_of_find?_eq_some h

theorem topoAux_extends (g : Graph) :
    ∀ fuel done L, topoAux g fuel done = some L → ∃ rest, L = done ++ rest := by
  intro fuel
  induction fuel with
  | zero =>
    intro done L h
    simp only [topoAux] at h
    split at h
    · exact ⟨[], by simp [← Option.some.inj h]⟩
    · exact absurd h (by simp)
  | succ fuel ih =>
    intro done L h
    cases hp : pickNext g done with
    | none =>
      simp only [topoAux, hp] at h
      split at h
      · exact ⟨[], by simp [← Option.some.inj h]⟩
      · exact absurd h (by simp)
    | some n =>
      simp only [topoAux, hp] at h
      obtain ⟨rest, hrest⟩ := ih (done ++ [n]) L h
      exact ⟨n :: rest, by simpa using hrest⟩

theorem topoAux_split (g : Graph) :
    ∀ fuel done L, topoAux g fuel done = some L →
    (∀ u d : String, (u, d) ∈ g.edges → d ∈ done → appearsBefore done u d) →
    ∀ u d : String, (u, d) ∈ g.edges → d ∈ L → appearsBefore L u d := by
  intro fuel
  induction fuel with
  | zero =>
    intro done L h hdone
    simp only [topoAux] at h
    split at h
    · cases Option.some.inj h
      exact hdone
    · exact absurd h (by simp)
  | succ fuel ih =>
    intro done L h hdone
    cases hp : pickNext g done with
    | none =>
      simp only [topoAux, hp] at h
      split at h
      · cases Option.some.inj h
        exact hdone
      · exact absurd h (by simp)
    | some n =>
      simp only [topoAux, hp] at h
      refine ih (done ++ [n]) L h ?_
      intro u d hedge hd
      rcases List.mem_append.mp hd with hdin | hdn
      · obtain ⟨r₁, r₂, hsplit, hdr⟩ := hdone u d hedge hdin
        exact ⟨r₁, r₂ ++ [n], by rw [hsplit]; simp, List.mem_append_left _ hdr⟩
      · have hdn' : d = n := by simpa using hdn
        have hu : u ∈ done :=
          (ready_spec (pickNext_ready hp)).2 u d hedge hdn'
        obtain ⟨s, t, hst⟩ := List.append_of_mem hu
        refine ⟨s, t ++ [n], by rw [hst]; simp, ?_⟩
        rw [hdn']
        exact List.mem_append_right _ (by simp)

theorem topoAux_sound (g : Graph) :
    ∀ fuel done L, topoAux g fuel done = some L → done.Nodup →
    done ⊆ nodeNames g →
    L.Nodup ∧ L ⊆ nodeNames g ∧ L.length = g.nodes.length := by
  intro fuel
  induction fuel with
  | zero =>
    intro done L h hnd hsub
    simp only [topoAux] at h
    split at h
    · cases Option.some.inj h
      exact ⟨hnd, hsub, by assumption⟩
    · exact absurd h (by simp)
  | succ fuel ih =>
    intro done L h hnd hsub
    cases hp : pickNext g done with
    | none =>
      simp only [topoAux, hp] at h
      split at h
      · cases Option.some.inj h
        exact ⟨hnd, hsub, by assumption⟩
      · exact absurd h (by simp)
    | some n =>
      simp only [topoAux, hp] at h
      have hfresh : n ∉ done := (ready_spec (pickNext_ready hp)).1
      refine ih (done ++ [n]) L h ?_ ?_
      · simpa [List.nodup_append] using ⟨hnd, hfresh⟩
      · intro x hx
        rcases List.mem_append.mp hx with hx | hx
        · exact hsub hx
        · have : x = n := by simpa using hx
          rw [this]
          exact pickNext_mem hp

theorem topo_edges_respected {g : Graph} {L : List String}
    (h : topologicalOrder g = some L) :
    ∀ u d : String, (u, d) ∈ g.edges → d ∈ L → appearsBefore L u d := by
  refine topoAux_split g g.nodes.length [] L h ?_
  intro u d _ hd
  exact absurd hd (List.not_mem_nil d)

theorem topo_nodup {g : Graph} {L : List String}
    (h : topologicalOrder g = some L) : L.Nodup := by
  have := topoAux_sound g g.nodes.length [] L h (by simp) (by simp)
  exact this.1

theorem topo_complete {g : Graph} {L : List String}
    (h : topologicalOrder g = some L) : ∀ n ∈ nodeNames g, n ∈ L := by
  obtain ⟨hnd, hsub, hlen⟩ :=
    topoAux_sound g g.nodes.length [] L h (by simp) (by simp)
  have hlen' : (nodeNames g).length ≤ L.length := by
    simp [nodeNames, hlen]
  have hperm : L ~ nodeNames g :=
    (hnd.subperm hsub).perm_of_length_le hlen'
  intro n hn
  exact hperm.mem_iff.mpr hn

theorem nodup_split_unique {b : String} :
    ∀ (s₁ : List String) {t₁ s₂ t₂ L : List String}, L.Nodup →
    L = s₁ ++ b :: t₁ → L = s₂ ++ b :: t₂ → s₁ = s₂ ∧ t₁ = t₂ := by
  intro s₁
  induction s₁ with
  | nil =>
    intro t₁ s₂ t₂ L hnd h1 h2
    cases s₂ with
    | nil =>
      subst h1
      simp only [List.nil_append, List.cons.injEq] at h2
      exact ⟨rfl, h2.2⟩
    | cons c s₂' =>
      subst h1
      simp only [List.nil_append, List.cons_append, List.cons.injEq] at h2
      obtain ⟨hbc, ht⟩ := h2
      have hb : b ∈ t₁ := by
        rw [ht]
        exact List.mem_append_right _ (List.mem_cons_self b t₂)
      exact absurd hb (List.nodup_cons.mp hnd).1
  | cons a s₁' ih =>
    intro t₁ s₂ t₂ L hnd h1 h2
    cases s₂ with
    | nil =>
      subst h2
      simp only [List.nil_append, List.cons_append, List.cons.injEq] at h1
      obtain ⟨hba, ht⟩ := h1
      have hb : b ∈ t₂ := by
        rw [ht]
        exact List.mem_append_right _ (List.mem_cons_self b t₁)
      exact absurd hb (List.nodup_cons.mp hnd).1
    | cons c s₂' =>
      subst h1
      simp only [List.cons_append, List.cons.injEq] at h2
      obtain ⟨hac, ht⟩ := h2
      have hnd' : (s₁' ++ b :: t₁).Nodup := (List.nodup_cons.mp hnd).2
      obtain ⟨hs, htt⟩ := ih hnd' rfl ht
      exact ⟨by rw [hac, hs], htt⟩

theorem appearsBefore_trans {L : List String} {a b c : String}
    (hnd : L.Nodup) (h1 : appearsBefore L a b) (h2 : appearsBefore L b c) :
    appearsBefore L a c := by
  obtain ⟨r₁, r₂, hr, hbr⟩ := h1
  obtain ⟨q₁, q₂, hq, hcq⟩ := h2
  obtain ⟨x, y, hxy⟩ := List.append_of_mem hbr
  have hr' : L = (r₁ ++ a :: x) ++ b :: y := by
    rw [hr, hxy]; simp
  obtain ⟨-, hyq⟩ := nodup_split_unique q₁ hnd hq hr'
  refine ⟨r₁, r₂, hr, ?_⟩
  rw [hxy]
  rw [hyq] at hcq
  exact List.mem_append_right _ (List.mem_cons_of_mem b hcq)

theorem appearsBefore_irrefl {L : List String} {a : String}
    (hnd : L.Nodup) : ¬ appearsBefore L a a := by
  rintro ⟨r₁, r₂, hr, har⟩
  rw [hr, List.nodup_append] at hnd
  exact (List.nodup_cons.mp hnd.2.1).1 har

theorem reaches_trans {g : Graph} {a b c : String}
    (h1 : Reaches g a b) (h2 : Reaches g b c) : Reaches g a c := by
  induction h2 with
  | single he => exact .tail h1 he
  | tail _ he ih => exact .tail ih he

theorem reaches_mono {g g' : Graph} (hsub : ∀ p : String × String, p ∈ g.edges → p ∈ g'.edges)
    {a b : String} (h : Reaches g a b) : Reaches g' a b := by
  induction h with
  | single he => exact .single (hsub _ he)
  | tail _ he ih => exact .tail ih (hsub _ he)

theorem reaches_appearsBefore {g : Graph} {L : List String}
    (htopo : topologicalOrder g = some L) (hreg : edgesRegistered g)
    {a b : String} (h : Reaches g a b) : appearsBefore L a b := by
  induction h with
  | single he =>
    exact topo_edges_respected htopo _ _ he
      (topo_complete htopo _ ((hreg _ he).2))
  | tail _ he ih =>
    exact appearsBefore_trans (topo_nodup htopo) ih
      (topo_edges_respected htopo _ _ he
        (topo_complete htopo _ ((hreg _ he).2)))

theorem topo_cycle_none {g : Graph} (hreg : edgesRegistered g)
    {u : String} (hcyc : Reaches g u u) : topologicalOrder g = none := by
  cases htopo : topologicalOrder g with
  | none => rfl
  | some L =>
    exact absurd (reaches_appearsBefore htopo hreg hcyc)
      (appearsBefore_irrefl (topo_nodup htopo))

/-- Modelled from the spec: the status a run reports for each node; a
skipped node is reported distinctly from a succeeded one (section 5). -/
inductive Status where
  | succeeded
  | failed
  | skipped
  deriving DecidableEq, Repr

/-- The per-run report: one (task name, status) record per executed slot. -/
abbrev RunLog := List (String × Status)

/-- First-match lookup of a task's reported status. -/
def lookupStatus : RunLog → String → Option Status
  | [], _ => none
  | (k, v) :: rest, n => if k = n then some v else lookupStatus rest n

/-- Every direct upstream of `n` has completed successfully. -/
def upstreamsOk (g : Graph) (st : RunLog) (n : String) : Prop :=
  ∀ e ∈ g.edges, e.2 = n → lookupStatus st e.1 = some Status.succeeded

instance (g : Graph) (st : RunLog) (n : String) :
    Decidable (upstreamsOk g st n) := by
  unfold upstreamsOk
  infer_instance

/-- Modelled from the spec: one executor step.  A node begins only when
every direct upstream has completed successfully; then it executes and
fails exactly when it lies in the failure set `F` (the nodes whose
external operation fails); otherwise the node is skipped, and its
operation is never invoked (sections 5 and 7). -/
def runStep (g : Graph) (F : List String) (st : RunLog) (n : String) : RunLog :=
  st ++ [(n,
    if upstreamsOk g st n then
      (if n ∈ F then Status.failed else Status.succeeded)
    else Status.skipped)]

/-- Modelled from the spec: the executor walks the given node list in
order, one `runStep` per node. -/
def runList (g : Graph) (F : List String) : List String → RunLog → RunLog
  | [], st => st
  | n :: rest, st => runList g F rest (runStep g F st n)

/-- Modelled from the spec: a whole run processes the nodes in topological
order (section 5). -/
def runGraph (g : Graph) (F : List String) : Option RunLog :=
  (topologicalOrder g).map (fun L => runList g F L [])

/-- The tasks whose operation was actually invoked during the run: exactly
the non-skipped ones. -/
def invokedTasks (st : RunLog) : List String :=
  (st.filter (fun p => p.2 != Status.skipped)).map Prod.fst

theorem lookupStatus_append_left {st : RunLog} {n : String} {s : Status}
    (h : lookupStatus st n = some s) (l : RunLog) :
    lookupStatus (st ++ l) n = some s := by
  induction st with
  | nil => simp [lookupStatus] at h
  | cons p rest ih =>
    obtain ⟨k, v⟩ := p
    by_cases hk : k = n
    · simpa [lookupStatus, hk] using h
    · rw [List.cons_append]
      simp only [lookupStatus, if_neg hk] at h ⊢
      exact ih h

theorem lookupStatus_append_none {st : RunLog} {n : String}
    (h : lookupStatus st n = none) (l : RunLog) :
    lookupStatus (st ++ l) n = lookupStatus l n := by
  induction st with
  | nil => simp
  | cons p rest ih =>
    obtain ⟨k, v⟩ := p
    by_cases hk : k = n
    · simp [lookupStatus, hk] at h
    · rw [List.cons_append]
      simp only [lookupStatus, if_neg hk] at h ⊢
      exact ih h

theorem lookupStatus_isSome_of_mem {st : RunLog} {n : String}
    (h : n ∈ st.map Prod.fst) : ∃ s, lookupStatus st n = some s := by
  induction st with
  | nil => simp at h
  | cons p rest ih =>
    obtain ⟨k, v⟩ := p
    by_cases hk : k = n
    · exact ⟨v, by simp [lookupStatus, hk]⟩
    · simp only [List.map_cons, List.mem_cons] at h
      rcases h with h | h
      · exact absurd h.symm hk
      · obtain ⟨s, hs⟩ := ih h
        exact ⟨s, by simp [lookupStatus, hk, hs]⟩

theorem lookup_of_mem_nodup {st : RunLog} (hnd : (st.map Prod.fst).Nodup)
    {k : String} {v : Status} (hp : (k, v) ∈ st) :
    lookupStatus st k = some v := by
  induction st with
  | nil => simp at hp
  | cons q rest ih =>
    obtain ⟨k', v'⟩ := q
    simp only [List.map_cons, List.nodup_cons] at hnd
    rcases List.mem_cons.mp hp with h | h
    · cases h
      simp [lookupStatus]
    · have hk : k' ≠ k := by
        intro he
        exact hnd.1 (he ▸ List.mem_map.mpr ⟨(k, v), h, rfl⟩)
      simp only [lookupStatus, if_neg hk]
      exact ih hnd.2 h

theorem invoked_subset_keys (st : RunLog) :
    invokedTasks st ⊆ st.map Prod.fst := by
  intro x hx
  simp only [invokedTasks, List.mem_map, List.mem_filter] at hx
  obtain ⟨p, ⟨hp, -⟩, he⟩ := hx
  exact List.mem_map.mpr ⟨p, hp, he⟩

theorem not_invoked_of_skipped {st : RunLog} {d : String}
    (hnd : (st.map Prod.fst).Nodup)
    (h : lookupStatus st d = some Status.skipped) :
    d ∉ invokedTasks st := by
  intro hmem
  simp only [invokedTasks, List.mem_map, List.mem_filter] at hmem
  obtain ⟨⟨p₁, p₂⟩, ⟨hp, hstat⟩, he⟩ := hmem
  have hl := lookup_of_mem_nodup hnd hp
  rw [show p₁ = d from he] at hl
  rw [h] at hl
  cases hl
  simp at hstat

theorem keys_runList (g : Graph) (F : List String) :
    ∀ (order : List String) (st : RunLog),
    (runList g F order st).map Prod.fst = st.map Prod.fst ++ order := by
  intro order
  induction order with
  | nil =>
    intro st
    simp [runList]
  | cons n rest ih =>
    intro st
    rw [runList, ih, runStep]
    simp

/-- Run-log invariant: a node reported with a non-skipped status has every
direct upstream reported as succeeded. -/
def stInv (g : Graph) (st : RunLog) : Prop :=
  ∀ u d : String, (u, d) ∈ g.edges → ∀ s, lookupStatus st d = some s →
    s ≠ Status.skipped → lookupStatus st u = some Status.succeeded

theorem stInv_runStep {g : Graph} {F : List String} {st : RunLog} {n : String}
    (h : stInv g st) : stInv g (runStep g F st n) := by
  intro u d hedge s hd hs
  unfold runStep at hd ⊢
  cases hld : lookupStatus st d with
  | some s₀ =>
    rw [lookupStatus_append_left hld _] at hd
    cases hd
    exact lookupStatus_append_left (h u d hedge s hld hs) _
  | none =>
    rw [lookupStatus_append_none hld _] at hd
    by_cases hnd : n = d
    · subst hnd
      simp only [lookupStatus, if_pos rfl] at hd
      by_cases hok : upstreamsOk g st n
      · exact lookupStatus_append_left (hok (u, n) hedge rfl) _
      · rw [if_neg hok] at hd
        cases hd
        exact absurd rfl hs
    · simp [lookupStatus, hnd] at hd

theorem stInv_runList (g : Graph) (F : List String) :
    ∀ (order : List String) (st : RunLog),
    stInv g st → stInv g (runList g F order st) := by
  intro order
  induction order with
  | nil =>
    intro st h
    simpa [runList] using h
  | cons n rest ih =>
    intro st h
    exact ih _ (stInv_runStep h)

/-- Run-log invariant: a node reported failed lies in the failure set. -/
def failedInv (F : List String) (st : RunLog) : Prop :=
  ∀ m, lookupStatus st m = some Status.failed → m ∈ F

theorem failedInv_runStep {g : Graph} {F : List String} {st : RunLog}
    {n : String} (h : failedInv F st) : failedInv F (runStep g F st n) := by
  intro m hm
  unfold runStep at hm
  cases hlm : lookupStatus st m with
  | some s₀ =>
    rw [lookupStatus_append_left hlm _] at hm
    cases hm
    exact h m hlm
  | none =>
    rw [lookupStatus_append_none hlm _] at hm
    by_cases hnm : n = m
    · subst hnm
      simp only [lookupStatus, if_pos rfl] at hm
      by_cases hok : upstreamsOk g st n
      · rw [if_pos hok] at hm
        by_cases hF : n ∈ F
        · exact hF
        · rw [if_neg hF] at hm
          cases hm
      · rw [if_neg hok] at hm
        cases hm
    · simp [lookupStatus, hnm] at hm

theorem failedInv_runList (g : Graph) (F : List String) :
    ∀ (order : List String) (st : RunLog),
    failedInv F st → failedInv F (runList g F order st) := by
  intro order
  induction order with
  | nil =>
    intro st h
    simpa [runList] using h
  | cons n rest ih =>
    intro st h
    exact ih _ (failedInv_runStep h)

theorem runList_sound (g : Graph) (F : List String) :
    ∀ (rest : List String) (st : RunLog),
    rest.Nodup →
    (∀ u d : String, (u, d) ∈ g.edges → d ∈ rest →
      u ∈ st.map Prod.fst ∨ ∃ r₁ r₂, rest = r₁ ++ u :: r₂ ∧ d ∈ r₂) →
    (∀ m s, lookupStatus st m = some s → s ≠ Status.succeeded →
      m ∈ F ∨ ∃ a, a ∈ F ∧ Reaches g a m) →
    ∀ m s, lookupStatus (runList g F rest st) m = some s →
      s ≠ Status.succeeded → m ∈ F ∨ ∃ a, a ∈ F ∧ Reaches g a m := by
  intro rest
  induction rest with
  | nil =>
    intro st _ _ hgood m s hm hs
    exact hgood m s hm hs
  | cons n rest' ih =>
    intro st hnd hedge hgood
    rw [runList]
    have hfresh : n ∉ rest' := (List.nodup_cons.mp hnd).1
    refine ih (runStep g F st n) (List.nodup_cons.mp hnd).2 ?_ ?_
    · -- edge hypothesis for the extended log
      intro u d he hd
      rcases hedge u d he (List.mem_cons_of_mem n hd) with hu | ⟨r₁, r₂, hsplit, hdr⟩
      · left
        rw [runStep]
        simp [hu]
      · cases r₁ with
        | nil =>
          left
          simp only [List.nil_append, List.cons.injEq] at hsplit
          rw [runStep]
          simp [hsplit.1]
        | cons c r₁' =>
          right
          simp only [List.cons_append, List.cons.injEq] at hsplit
          exact ⟨r₁', r₂, hsplit.2, hdr⟩
    · -- goodness for the extended log
      intro m s hm hs
      unfold runStep at hm
      cases hlm : lookupStatus st m with
      | some s₀ =>
        rw [lookupStatus_append_left hlm _] at hm
        cases hm
        exact hgood m s hlm hs
      | none =>
        rw [lookupStatus_append_none hlm _] at hm
        by_cases hnm : n = m
        · subst hnm
          simp only [lookupStatus, if_pos rfl] at hm
          by_cases hok : upstreamsOk g st n
          · rw [if_pos hok] at hm
            by_cases hF : n ∈ F
            · exact Or.inl hF
            · rw [if_neg hF] at hm
              cases hm
              exact absurd rfl hs
          · -- skipped because some direct upstream did not succeed
            unfold upstreamsOk at hok
            push_neg at hok
            obtain ⟨e, hemem, hen, heu⟩ := hok
            obtain ⟨u, d⟩ := e
            have hdn : d = n := hen
            rcases hedge u d hemem (by rw [hdn]; exact List.mem_cons_self n rest')
              with hu | ⟨r₁, r₂, hsplit, hdr⟩
            · obtain ⟨s_u, hsu⟩ := lookupStatus_isSome_of_mem hu
              have hsune : s_u ≠ Status.succeeded := by
                intro hcon
                exact heu (by rw [hsu, hcon])
              rcases hgood u s_u hsu hsune with huF | ⟨a, haF, har⟩
              · exact Or.inr ⟨u, huF, by
                  rw [← hdn]
                  exact Reaches.single hemem⟩
              · exact Or.inr ⟨a, haF, by
                  rw [← hdn]
                  exact Reaches.tail har hemem⟩
            · -- impossible: n would occur again later in rest'
              exfalso
              have hmem' : n ∈ rest' := by
                rw [← hdn]
                cases r₁ with
                | nil =>
                  simp only [List.nil_append, List.cons.injEq] at hsplit
                  rw [hsplit.2]
                  exact hdr
                | cons c r₁' =>
                  simp only [List.cons_append, List.cons.injEq] at hsplit
                  rw [hsplit.2]
                  exact List.mem_append_right _ (List.mem_cons_of_mem u hdr)
              exact hfresh hmem'
        · simp [lookupStatus, hnm] at hm

/-- Modelled from the spec: the Result Store, a run-scoped key/value bag
keyed by task name (section 4.3). -/
abbrev Store := List (String × String)

/-- Modelled from the spec: the external collaborator's resource state, a
map from resource identifier to payload (section 6); the collaborator is
opaque, but its create family is idempotent (section 4.2). -/
abbrev World := List (String × List (String × String))

/-- Generic first-match association lookup. -/
def alookup {α : Type} : List (String × α) → String → Option α
  | [], _ => none
  | (k, v) :: rest, n => if k = n then some v else alookup rest n

/-- Modelled from the spec: `put(taskName, value)` is write-once per task
name per run: a record, once written, is never mutated (section 4.3). -/
def put (s : Store) (k v : String) : Store :=
  match alookup s k with
  | some _ => s
  | none => s ++ [(k, v)]

/-- Modelled from the spec: `get(taskName)` fails with NotFoundError if no
record exists yet, and otherwise returns the stored value (section 4.3). -/
def get (s : Store) (k : String) : Except Err String :=
  match alookup s k with
  | some v => .ok v
  | none => .error .notFoundError

/-- Modelled from the spec: resolve a task's resource identifier; a
reference to an upstream task's output is resolved through the Result
Store and fails with UnresolvedReferenceError if the referenced task has
not yet produced a result (section 4.2). -/
def resolveId (s : Store) (r : ResId) : Except Err String :=
  match r with
  | .explicitId id => .ok id
  | .reference t =>
    match alookup s t with
    | some v => .ok v
    | none => .error .unresolvedReferenceError
  | .autogen => .error .unresolvedReferenceError

/-- The outcome of executing one task node: the collaborator state and
Result Store afterwards, the task's result, and whether the external
operation was actually invoked. -/
structure ExecOut where
  world : World
  store : Store
  outcome : Except Err String
  invoked : Bool
  deriving Repr

/-- Modelled from the spec: `execute(resultStore)`, polymorphic over the
operation kind (section 4.2).  Create resolves or generates its identifier
and is idempotent: an already-existing resource is treated as success, not
error, and no second resource is produced.  Get/Update/Delete first
resolve their identifier via the Result Store, failing with
UnresolvedReferenceError without invoking the external operation; on
success the task's output (the resolved identifier) is recorded
write-once in the Result Store (sections 4.2, 4.3 and 7). -/
def executeNode (n : TaskNode) (w : World) (s : Store) : ExecOut :=
  match n.op with
  | .create =>
    match n.rid with
    | .autogen =>
      let id := "generated:" ++ n.name
      ⟨w ++ [(id, n.payload)], put s n.name id, .ok id, true⟩
    | .explicitId id =>
      match alookup w id with
      | some _ => ⟨w, put s n.name id, .ok id, true⟩
      | none => ⟨w ++ [(id, n.payload)], put s n.name id, .ok id, true⟩
    | .reference t =>
      match alookup s t with
      | none => ⟨w, s, .error .unresolvedReferenceError, false⟩
      | some id =>
        match alookup w id with
        | some _ => ⟨w, put s n.name id, .ok id, true⟩
        | none => ⟨w ++ [(id, n.payload)], put s n.name id, .ok id, true⟩
  | .get =>
    match resolveId s n.rid with
    | .error e => ⟨w, s, .error e, false⟩
    | .ok id =>
      match alookup w id with
      | none => ⟨w, s, .error .operationFailedError, true⟩
      | some _ => ⟨w, put s n.name id, .ok id, true⟩
  | .update =>
    match resolveId s n.rid with
    | .error e => ⟨w, s, .error e, false⟩
    | .ok id =>
      match alookup w id with
      | none => ⟨w, s, .error .operationFailedError, true⟩
      | some _ =>
        ⟨(w.filter (fun p => p.1 != id)) ++ [(id, n.payload)],
          put s n.name id, .ok id, true⟩
  | .delete =>
    match resolveId s n.rid with
    | .error e => ⟨w, s, .error e, false⟩
    | .ok id =>
      match alookup w id with
      | none => ⟨w, s, .error .operationFailedError, true⟩
      | some _ => ⟨w.filter (fun p => p.1 != id), put s n.name id, .ok id, true⟩

/-- Look up a registered node by name. -/
def findNode (g : Graph) (n : String) : Option TaskNode :=
  g.nodes.find? (fun t => t.name == n)

/-- Modelled from the spec: execute the listed nodes in order against the
collaborator state and Result Store, recording each task's outcome. -/
def execList (g : Graph) :
    List String → World → Store → List (String × Except Err String) →
    List (String × Except Err String)
  | [], _, _, log => log
  | n :: rest, w, s, log =>
    match findNode g n with
    | none => execList g rest w s (log ++ [(n, .error .unknownNodeError)])
    | some t =>
      let out := executeNode t w s
      execList g rest out.world out.store (log ++ [(n, out.outcome)])

/-- Modelled from the spec: a whole run executes the nodes in topological
order, starting from an empty collaborator state and an empty Result
Store (sections 2 and 5). -/
def execGraph (g : Graph) : Option (List (String × Except Err String)) :=
  (topologicalOrder g).map (fun L => execList g L [] [] [])

/-- The list `L` is consistent with all edges: for every edge, the
upstream occurs in `L` before the downstream (as a two-element sublist). -/
def respectsAll (g : Graph) (L : List String) : Prop :=
  ∀ e ∈ g.edges, [e.1, e.2] <+ L

instance (g : Graph) (L : List String) : Decidable (respectsAll g L) := by
  unfold respectsAll
  infer_instance

theorem alookup_append_left {α : Type} {l : List (String × α)} {n : String}
    {a : α} (h : alookup l n = some a) (l₂ : List (String × α)) :
    alookup (l ++ l₂) n = some a := by
  induction l with
  | nil => simp [alookup] at h
  | cons p rest ih =>
    obtain ⟨k, v⟩ := p
    by_cases hk : k = n
    · simpa [alookup, hk] using h
    · rw [List.cons_append]
      simp only [alookup, if_neg hk] at h ⊢
      exact ih h

theorem alookup_append_none {α : Type} {l : List (String × α)} {n : String}
    (h : alookup l n = none) (l₂ : List (String × α)) :
    alookup (l ++ l₂) n = alookup l₂ n := by
  induction l with
  | nil => simp
  | cons p rest ih =>
    obtain ⟨k, v⟩ := p
    by_cases hk : k = n
    · simp [alookup, hk] at h
    · rw [List.cons_append]
      simp only [alookup, if_neg hk] at h ⊢
      exact ih h

/-- The number of records stored under key `k`. -/
def countKey {α : Type} (l : List (String × α)) (k : String) : Nat :=
  (l.filter (fun p => p.1 == k)).length

theorem countKey_zero_of_alookup_none {α : Type} {l : List (String × α)}
    {k : String} (h : alookup l k = none) : countKey l k = 0 := by
  induction l with
  | nil => rfl
  | cons p rest ih =>
    obtain ⟨k', v⟩ := p
    by_cases hk : k' = k
    · simp [alookup, hk] at h
    · simp only [alookup, if_neg hk] at h
      simp only [countKey, List.filter_cons]
      rw [if_neg (by simpa using hk)]
      exact ih h

theorem countKey_append {α : Type} (l₁ l₂ : List (String × α)) (k : String) :
    countKey (l₁ ++ l₂) k = countKey l₁ k + countKey l₂ k := by
  simp [countKey, List.filter_append]

theorem topoAux_pick (g : Graph) :
    ∀ fuel done L, topoAux g fuel done = some L →
    ∀ i, done.length ≤ i → i < L.length → pickNext g (L.take i) = L[i]? := by
  intro fuel
  induction fuel with
  | zero =>
    intro done L h i hge hlt
    simp only [topoAux] at h
    split at h
    · cases Option.some.inj h
      exact absurd hlt (not_lt.mpr hge)
    · exact absurd h (by simp)
  | succ fuel ih =>
    intro done L h
    cases hp : pickNext g done with
    | none =>
      simp only [topoAux, hp] at h
      split at h
      · intro i hge hlt
        cases Option.some.inj h
        exact absurd hlt (not_lt.mpr hge)
      · exact absurd h (by simp)
    | some n =>
      simp only [topoAux, hp] at h
      intro i hge hlt
      rcases Nat.eq_or_lt_of_le hge with heq | hlt'
      · obtain ⟨rest, hrest⟩ := topoAux_extends g fuel (done ++ [n]) L h
        rw [List.append_assoc] at hrest
        subst hrest
        rw [← heq]
        rw [List.take_left, List.getElem?_append_right (le_refl _)]
        simpa using hp
      · refine ih (done ++ [n]) L h i ?_ hlt
        simp only [List.length_append, List.length_singleton]
        omega

theorem isolated_no_reaches {g : Graph} {x : String}
    (hiso : ∀ e ∈ g.edges, e.1 ≠ x ∧ e.2 ≠ x) :
    ∀ y, ¬ Reaches g x y ∧ ¬ Reaches g y x := by
  have hsrc : ∀ a y : String, Reaches g a y → a ≠ x := by
    intro a y h
    induction h with
    | single he => exact fun hax => (hiso _ he).1 (by rw [← hax])
    | tail _ _ ih => exact ih
  have hdst : ∀ a y : String, Reaches g a y → y ≠ x := by
    intro a y h
    induction h with
    | single he => exact (hiso _ he).2
    | tail _ he _ => exact (hiso _ he).2
  exact fun y =>
    ⟨fun h => hsrc x y h rfl, fun h => hdst y x h rfl⟩

theorem insert_respects {g : Graph} (x : String) (l₁ l₂ : List String)
    (h : respectsAll g (l₁ ++ l₂)) : respectsAll g (l₁ ++ x :: l₂) :=
  fun e he => (h e he).trans ((List.sublist_cons_self x l₂).append_left l₁)

/-- Task `product_set_create` (source lines 84-90): create a product set
with an autogenerated id. -/
def product_set_create : TaskNode :=
  ⟨"product_set_create", .create, .autogen,
    [("display_name", "My Product Set 1")]⟩

/-- Task `product_set_get` (source lines 94-98): its `product_set_id` is
`xcom_pull('product_set_create')`, a reference to that task's output. -/
def product_set_get : TaskNode :=
  ⟨"product_set_get", .get, .reference "product_set_create", []⟩

/-- Task `product_set_update` (source lines 102-107). -/
def product_set_update : TaskNode :=
  ⟨"product_set_update", .update, .reference "product_set_create",
    [("display_name", "My Product Set 2")]⟩

/-- Task `product_set_delete` (source lines 111-115). -/
def product_set_delete : TaskNode :=
  ⟨"product_set_delete", .delete, .reference "product_set_create", []⟩

/-- Task `product_create` (source lines 119-125). -/
def product_create : TaskNode :=
  ⟨"product_create", .create, .autogen,
    [("display_name", "My Product 1"), ("product_category", "toys")]⟩

/-- Task `product_get` (source lines 129-133): its `product_id` is
`xcom_pull('product_create')`. -/
def product_get : TaskNode :=
  ⟨"product_get", .get, .reference "product_create", []⟩

/-- Task `product_update` (source lines 137-142). -/
def product_update : TaskNode :=
  ⟨"product_update", .update, .reference "product_create",
    [("display_name", "My Product 2"), ("description", "My updated description")]⟩

/-- Task `product_delete` (source lines 146-150). -/
def product_delete : TaskNode :=
  ⟨"product_delete", .delete, .reference "product_create", []⟩

/-- Task `product_set_create_2` (source lines 161-168): explicit id
`product_set_explicit_id` (the default of GCP_VISION_PRODUCT_SET_ID). -/
def product_set_create_2 : TaskNode :=
  ⟨"product_set_create_2", .create, .explicitId "product_set_explicit_id",
    [("display_name", "My Product Set 1")]⟩

/-- Task `product_set_create_2_idempotence` (source lines 172-179): a
second create with the same explicit `product_set_id`, declared to
demonstrate idempotence; no edge touches it. -/
def product_set_create_2_idempotence : TaskNode :=
  ⟨"product_set_create_2_idempotence", .create,
    .explicitId "product_set_explicit_id",
    [("display_name", "My Product Set 1")]⟩

/-- Task `product_set_get_2` (source lines 182-184). -/
def product_set_get_2 : TaskNode :=
  ⟨"product_set_get_2", .get, .explicitId "product_set_explicit_id", []⟩

/-- Task `product_set_update_2` (source lines 188-193). -/
def product_set_update_2 : TaskNode :=
  ⟨"product_set_update_2", .update, .explicitId "product_set_explicit_id",
    [("display_name", "My Product Set 2")]⟩

/-- Task `product_set_delete_2` (source lines 197-199). -/
def product_set_delete_2 : TaskNode :=
  ⟨"product_set_delete_2", .delete, .explicitId "product_set_explicit_id", []⟩

/-- Task `product_create_2` (source lines 203-210): explicit id
`product_explicit_id` (the default of GCP_VISION_PRODUCT_ID). -/
def product_create_2 : TaskNode :=
  ⟨"product_create_2", .create, .explicitId "product_explicit_id",
    [("display_name", "My Product 1"), ("product_category", "toys")]⟩

/-- Task `product_create_2_idempotence` (source lines 214-221): a second
create with the same explicit `product_id`; no edge touches it. -/
def product_create_2_idempotence : TaskNode :=
  ⟨"product_create_2_idempotence", .create, .explicitId "product_explicit_id",
    [("display_name", "My Product 1"), ("product_category", "toys")]⟩

/-- Task `product_get_2` (source lines 224-226). -/
def product_get_2 : TaskNode :=
  ⟨"product_get_2", .get, .explicitId "product_explicit_id", []⟩

/-- Task `product_update_2` (source lines 230-235). -/
def product_update_2 : TaskNode :=
  ⟨"product_update_2", .update, .explicitId "product_explicit_id",
    [("display_name", "My Product 2"), ("description", "My updated description")]⟩

/-- Task `product_delete_2` (source lines 239-241). -/
def product_delete_2 : TaskNode :=
  ⟨"product_delete_2", .delete, .explicitId "product_explicit_id", []⟩

/-- The example DAG of the source file: the eighteen tasks in declaration
order, and the twelve edges declared by the four `>>` chains on source
lines 153-154 and 244-245. -/
def exampleDag : Graph :=
  ⟨[product_set_create, product_set_get, product_set_update,
    product_set_delete, product_create, product_get, product_update,
    product_delete, product_set_create_2, product_set_create_2_idempotence,
    product_set_get_2, product_set_update_2, product_set_delete_2,
    product_create_2, product_create_2_idempotence, product_get_2,
    product_update_2, product_delete_2],
   [("product_set_create", "product_set_get"),
    ("product_set_get", "product_set_update"),
    ("product_set_update", "product_set_delete"),
    ("product_create", "product_get"),
    ("product_get", "product_update"),
    ("product_update", "product_delete"),
    ("product_set_create_2", "product_set_get_2"),
    ("product_set_get_2", "product_set_update_2"),
    ("product_set_update_2", "product_set_delete_2"),
    ("product_create_2", "product_get_2"),
    ("product_get_2", "product_update_2"),
    ("product_update_2", "product_delete_2")]⟩

/-- The sub-graph consisting only of the two independent chains declared
on source lines 153-154: the ProductSet lifecycle chain and the Product
lifecycle chain, with no edge between the chains. -/
def twoChains : Graph :=
  ⟨[product_set_create, product_set_get, product_set_update,
    product_set_delete, product_create, product_get, product_update,
    product_delete],
   [("product_set_create", "product_set_get"),
    ("product_set_get", "product_set_update"),
    ("product_set_update", "product_set_delete"),
    ("product_create", "product_get"),
    ("product_get", "product_update"),
    ("product_update", "product_delete")]⟩

/-- The spec's section-8 scenario graph: Create("ps1"), Get("ps1"),
Update("ps1"), Delete("ps1") chained A→B→C→D. -/
def scenarioChain : Graph :=
  ⟨[⟨"create", .create, .explicitId "ps1", []⟩,
    ⟨"get", .get, .explicitId "ps1", []⟩,
    ⟨"update", .update, .explicitId "ps1", []⟩,
    ⟨"delete", .delete, .explicitId "ps1", []⟩],
   [("create", "get"), ("get", "update"), ("update", "delete")]⟩

/-- A one-node graph used to exercise the graph-construction errors. -/
def oneNodeDag : Graph :=
  ⟨[⟨"a", .create, .autogen, []⟩], []⟩

/-- The topological order of the example DAG (its declaration order is
already consistent with all edges, so the insertion-order tie-break
returns it unchanged). -/
def exampleTopo : List String :=
  ["product_set_create", "product_set_get", "product_set_update",
   "product_set_delete", "product_create", "product_get", "product_update",
   "product_delete", "product_set_create_2",
   "product_set_create_2_idempotence", "product_set_get_2",
   "product_set_update_2", "product_set_delete_2", "product_create_2",
   "product_create_2_idempotence", "product_get_2", "product_update_2",
   "product_delete_2"]

/-- C1: for every dependency graph whose edges connect registered nodes,
the ordering returned by `topologicalOrder()` places every node strictly
after all of its upstream dependencies: for every edge (u, d), u appears
before d in the returned ordering.  Instantiated at the example DAG this
gives product_set_create before product_set_get before product_set_update
before product_set_delete, and likewise for the product chain. -/
theorem topologicalOrder_places_nodes_after_upstreams
    (g : Graph) (L : List String) (h : topologicalOrder g = some L)
    (hreg : edgesRegistered g) :
    ∀ u d : String, (u, d) ∈ g.edges → appearsBefore L u d := by
  intro u d he
  exact topo_edges_respected h u d he (topo_complete h d ((hreg (u, d) he).2))

theorem topologicalOrder_places_nodes_after_upstreams_witness :
    appearsBefore exampleTopo "product_set_create" "product_set_get" ∧
    appearsBefore exampleTopo "product_set_get" "product_set_update" ∧
    appearsBefore exampleTopo "product_set_update" "product_set_delete" ∧
    appearsBefore exampleTopo "product_create" "product_get" ∧
    appearsBefore exampleTopo "product_get" "product_update" ∧
    appearsBefore exampleTopo "product_update" "product_delete" :=
  ⟨topologicalOrder_places_nodes_after_upstreams exampleDag exampleTopo rfl
      (by decide) _ _ (by decide),
   topologicalOrder_places_nodes_after_upstreams exampleDag exampleTopo rfl
      (by decide) _ _ (by decide),
   topologicalOrder_places_nodes_after_upstreams exampleDag exampleTopo rfl
      (by decide) _ _ (by decide),
   topologicalOrder_places_nodes_after_upstreams exampleDag exampleTopo rfl
      (by decide) _ _ (by decide),
   topologicalOrder_places_nodes_after_upstreams exampleDag exampleTopo rfl
      (by decide) _ _ (by decide),
   topologicalOrder_places_nodes_after_upstreams exampleDag exampleTopo rfl
      (by decide) _ _ (by decide)⟩

/-- C8: `topologicalOrder()` is a deterministic function of the graph: any
two results on the same graph are equal, and when several orderings are
consistent with the edges the returned one breaks ties by insertion
order: the node at each position is the first node, in insertion order,
that is ready given the prefix before it. -/
theorem topologicalOrder_deterministic_insertion_tiebreak
    (g : Graph) (L : List String) (h : topologicalOrder g = some L) :
    (∀ L', topologicalOrder g = some L' → L' = L) ∧
    (∀ i, i < L.length → pickNext g (L.take i) = L[i]?) := by
  constructor
  · intro L' h'
    rw [h] at h'
    exact (Option.some.inj h').symm
  · intro i hi
    exact topoAux_pick g g.nodes.length [] L h i (Nat.zero_le i) hi

theorem topologicalOrder_deterministic_insertion_tiebreak_witness :
    pickNext exampleDag (exampleTopo.take 9) = exampleTopo[9]? :=
  (topologicalOrder_deterministic_insertion_tiebreak exampleDag exampleTopo
      rfl).2 9 (by decide)

/-- C4: for every graph state with registered edge endpoints and every
pair of registered nodes (u, d), if adding the edge (u, d) would create a
cycle (u = d, or d already reaches u) then `addEdge(u, d)` fails with
CycleError and the graph afterward equals the graph before the call; if
either endpoint is unregistered it fails with UnknownNodeError. -/
theorem addEdge_cycle_and_unknown_errors (g : Graph) (u d : String) :
    (edgesRegistered g → hasNode g u → hasNode g d → (u = d ∨ Reaches g d u) →
      addEdgeRun g u d = (g, some Err.cycleError)) ∧
    (¬ (hasNode g u ∧ hasNode g d) →
      addEdgeRun g u d = (g, some Err.unknownNodeError)) := by
  constructor
  · intro hreg hu hd hcyc
    have hcyc' : Reaches ⟨g.nodes, g.edges ++ [(u, d)]⟩ u u := by
      have hedge' : (u, d) ∈ (Graph.mk g.nodes (g.edges ++ [(u, d)])).edges :=
        List.mem_append_right _ (List.mem_singleton.mpr rfl)
      rcases hcyc with he | hr
      · subst he
        exact Reaches.single hedge'
      · exact reaches_trans (Reaches.single hedge')
          (reaches_mono (fun p hp => List.mem_append_left _ hp) hr)
    have hreg' : edgesRegistered ⟨g.nodes, g.edges ++ [(u, d)]⟩ := by
      intro e hemem
      rcases List.mem_append.mp hemem with h1 | h2
      · exact hreg e h1
      · have heq : e = (u, d) := by simpa using h2
        rw [heq]
        exact ⟨hu, hd⟩
    have hnone := topo_cycle_none hreg' hcyc'
    unfold addEdgeRun addEdge
    rw [if_pos ⟨hu, hd⟩, hnone]
  · intro hnot
    unfold addEdgeRun addEdge
    rw [if_neg hnot]

theorem addEdge_cycle_and_unknown_errors_witness :
    addEdgeRun oneNodeDag "a" "a" = (oneNodeDag, some Err.cycleError) ∧
    addEdgeRun oneNodeDag "a" "b" = (oneNodeDag, some Err.unknownNodeError) :=
  ⟨(addEdge_cycle_and_unknown_errors oneNodeDag "a" "a").1
      (by decide) (by decide) (by decide) (Or.inl rfl),
   (addEdge_cycle_and_unknown_errors oneNodeDag "a" "b").2 (by decide)⟩

/-- C7: `addTask(n)` fails with DuplicateNameError when a node with n's
name is already registered and otherwise registers n (appending it to the
insertion order); every construction-time error leaves the graph exactly
as it was, so no partial graph is built. -/
theorem addTask_duplicate_and_construction_errors_fatal
    (g : Graph) (n : TaskNode) :
    (hasNode g n.name → addTaskRun g n = (g, some Err.duplicateNameError)) ∧
    (¬ hasNode g n.name →
      addTaskRun g n = (⟨g.nodes ++ [n], g.edges⟩, none)) ∧
    (∀ g' e, addTaskRun g n = (g', some e) → g' = g) ∧
    (∀ u d g' e, addEdgeRun g u d = (g', some e) → g' = g) := by
  refine ⟨?_, ?_, ?_, ?_⟩
  · intro h
    unfold addTaskRun addTask
    rw [if_pos h]
  · intro h
    unfold addTaskRun addTask
    rw [if_neg h]
  · intro g' e h
    unfold addTaskRun addTask at h
    by_cases hdup : hasNode g n.name
    · rw [if_pos hdup] at h
      exact (congrArg Prod.fst h).symm
    · rw [if_neg hdup] at h
      exact absurd (congrArg Prod.snd h) (by simp)
  · intro u d g' e h
    unfold addEdgeRun addEdge at h
    by_cases hok : hasNode g u ∧ hasNode g d
    · rw [if_pos hok] at h
      cases htopo : topologicalOrder ⟨g.nodes, g.edges ++ [(u, d)]⟩ with
      | some L =>
        rw [htopo] at h
        exact absurd (congrArg Prod.snd h) (by simp)
      | none =>
        rw [htopo] at h
        exact (congrArg Prod.fst h).symm
    · rw [if_neg hok] at h
      exact (congrArg Prod.fst h).symm

theorem addTask_duplicate_and_construction_errors_fatal_witness :
    addTaskRun oneNodeDag ⟨"a", .get, .autogen, []⟩ =
      (oneNodeDag, some Err.duplicateNameError) ∧
    addTaskRun (⟨[], []⟩ : Graph) ⟨"a", .create, .autogen, []⟩ =
      ((⟨[⟨"a", .create, .autogen, []⟩], []⟩ : Graph), none) :=
  ⟨(addTask_duplicate_and_construction_errors_fatal
      oneNodeDag ⟨"a", .get, .autogen, []⟩).1 (by decide),
   (addTask_duplicate_and_construction_errors_fatal
      (⟨[], []⟩ : Graph) ⟨"a", .create, .autogen, []⟩).2.1 (by decide)⟩

/-- C5: `get(taskName)` on the Result Store fails with NotFoundError
before the corresponding `put(taskName, value)`; after the put it returns
exactly the stored value; and put is write-once: once a record exists for
the name, a further put never mutates it. -/
theorem store_get_put_contract (s : Store) (k v : String) :
    (alookup s k = none → get s k = Except.error Err.notFoundError) ∧
    (alookup s k = none → get (put s k v) k = Except.ok v) ∧
    (∀ v₀, get s k = Except.ok v₀ → ∀ w, put s k w = s) := by
  refine ⟨?_, ?_, ?_⟩
  · intro h
    unfold get
    rw [h]
  · intro h
    unfold put
    rw [h]
    unfold get
    rw [alookup_append_none h]
    simp [alookup]
  · intro v₀ hg w
    unfold get at hg
    cases hl : alookup s k with
    | none =>
      rw [hl] at hg
      cases hg
    | some v₁ =>
      unfold put
      rw [hl]

theorem store_get_put_contract_witness :
    get ([] : Store) "product_set_create" = Except.error Err.notFoundError ∧
    get (put ([] : Store) "product_set_create" "out") "product_set_create" =
      Except.ok "out" ∧
    put [("product_set_create", "out")] "product_set_create" "other" =
      [("product_set_create", "out")] :=
  ⟨(store_get_put_contract [] "product_set_create" "out").1 rfl,
   (store_get_put_contract [] "product_set_create" "out").2.1 rfl,
   (store_get_put_contract [("product_set_create", "out")]
      "product_set_create" "x").2.2 "out" rfl "other"⟩

/-- C6: a Get, Update or Delete node whose resource identifier is a
reference to an upstream task's output resolves the reference through the
Result Store first; if the referenced task has not yet produced a result,
`execute` fails with UnresolvedReferenceError, the external operation is
not invoked, and the collaborator state and store are untouched. -/
theorem execute_fails_on_unresolved_reference
    (n : TaskNode) (w : World) (s : Store) (t : String)
    (hop : n.op = OpKind.get ∨ n.op = OpKind.update ∨ n.op = OpKind.delete)
    (hrid : n.rid = ResId.reference t) (hlook : alookup s t = none) :
    executeNode n w s = ⟨w, s, Except.error Err.unresolvedReferenceError, false⟩ := by
  obtain ⟨nm, op, rid, pl⟩ := n
  simp only at hop hrid
  subst hrid
  rcases hop with h | h | h <;> subst h <;>
    simp [executeNode, resolveId, hlook]

theorem execute_fails_on_unresolved_reference_witness :
    executeNode product_set_get [] [] =
      ⟨[], [], Except.error Err.unresolvedReferenceError, false⟩ :=
  execute_fails_on_unresolved_reference product_set_get [] []
    "product_set_create" (Or.inl rfl) rfl rfl

/-- C2: Create is idempotent on explicit identifiers: executing a Create
node with an explicit resource identifier twice from a state where
neither the resource nor the task's ResultRecord exists succeeds both
times (the second invocation reports success, not an already-exists
error), leaves the collaborator state and Result Store exactly as after a
single Create, and exactly one resource and one ResultRecord exist. -/
theorem create_idempotent_on_explicit_id
    (n : TaskNode) (w : World) (s : Store) (id : String)
    (hop : n.op = OpKind.create) (hrid : n.rid = ResId.explicitId id)
    (hw : alookup w id = none) (hs : alookup s n.name = none) :
    (executeNode n w s).outcome = Except.ok id ∧
    (executeNode n (executeNode n w s).world (executeNode n w s).store).outcome
      = Except.ok id ∧
    (executeNode n (executeNode n w s).world (executeNode n w s).store).world
      = (executeNode n w s).world ∧
    (executeNode n (executeNode n w s).world (executeNode n w s).store).store
      = (executeNode n w s).store ∧
    countKey (executeNode n w s).world id = 1 ∧
    countKey (executeNode n w s).store n.name = 1 := by
  obtain ⟨nm, op, rid, pl⟩ := n
  simp only at hop hrid hs ⊢
  subst hop
  subst hrid
  have h1 : executeNode ⟨nm, OpKind.create, ResId.explicitId id, pl⟩ w s =
      ⟨w ++ [(id, pl)], s ++ [(nm, id)], Except.ok id, true⟩ := by
    simp [executeNode, put, hw, hs]
  rw [h1]
  have hw' : alookup (w ++ [(id, pl)]) id = some pl := by
    rw [alookup_append_none hw]
    simp [alookup]
  have hs' : alookup (s ++ [(nm, id)]) nm = some id := by
    rw [alookup_append_none hs]
    simp [alookup]
  have h2 : executeNode ⟨nm, OpKind.create, ResId.explicitId id, pl⟩
      (w ++ [(id, pl)]) (s ++ [(nm, id)]) =
      ⟨w ++ [(id, pl)], s ++ [(nm, id)], Except.ok id, true⟩ := by
    simp [executeNode, put, hw', hs']
  rw [h2]
  refine ⟨rfl, rfl, rfl, rfl, ?_, ?_⟩
  · rw [countKey_append, countKey_zero_of_alookup_none hw]
    simp [countKey]
  · rw [countKey_append, countKey_zero_of_alookup_none hs]
    simp [countKey]

theorem create_idempotent_on_explicit_id_witness :
    (executeNode product_set_create_2 [] []).outcome =
      Except.ok "product_set_explicit_id" ∧
    (executeNode product_set_create_2
      (executeNode product_set_create_2 [] []).world
      (executeNode product_set_create_2 [] []).store).outcome =
      Except.ok "product_set_explicit_id" ∧
    (executeNode product_set_create_2
      (executeNode product_set_create_2 [] []).world
      (executeNode product_set_create_2 [] []).store).world =
      (executeNode product_set_create_2 [] []).world ∧
    (executeNode product_set_create_2
      (executeNode product_set_create_2 [] []).world
      (executeNode product_set_create_2 [] []).store).store =
      (executeNode product_set_create_2 [] []).store ∧
    countKey (executeNode product_set_create_2 [] []).world
      "product_set_explicit_id" = 1 ∧
    countKey (executeNode product_set_create_2 [] []).store
      "product_set_create_2" = 1 :=
  create_idempotent_on_explicit_id product_set_create_2 [] []
    "product_set_explicit_id" rfl rfl rfl rfl

/-- A three-node graph with one failing chain and an independent sibling,
used to exercise the failure-propagation contract. -/
def failDag : Graph :=
  ⟨[⟨"a", .create, .autogen, []⟩, ⟨"b", .get, .reference "a", []⟩,
    ⟨"c", .create, .autogen, []⟩],
   [("a", "b")]⟩

/-- The run log of `failDag` when node "a" fails. -/
def failLog : RunLog :=
  [("a", Status.failed), ("b", Status.skipped), ("c", Status.succeeded)]

/-- C3: in every run of a graph whose edges connect registered nodes, if
a node fails then every node reachable from it is reported Skipped
(never Succeeded) and its operation is not invoked; a node is reported
with a non-skipped status only when every direct upstream is reported
succeeded (so a downstream node never begins before its upstreams
complete successfully); and every node not in the failure set and not
reachable from any failing node executes unaffected, i.e. succeeds. -/
theorem failure_skips_reachable_downstream
    (g : Graph) (F : List String) (st : RunLog)
    (hrun : runGraph g F = some st) (hreg : edgesRegistered g) :
    (∀ a d, lookupStatus st a = some Status.failed → Reaches g a d →
      lookupStatus st d = some Status.skipped ∧ d ∉ invokedTasks st) ∧
    (∀ u d, (u, d) ∈ g.edges → ∀ s, lookupStatus st d = some s →
      s ≠ Status.skipped → lookupStatus st u = some Status.succeeded) ∧
    (∀ m, m ∈ nodeNames g → m ∉ F → (∀ a ∈ F, ¬ Reaches g a m) →
      lookupStatus st m = some Status.succeeded) := by
  unfold runGraph at hrun
  cases htopo : topologicalOrder g with
  | none =>
    rw [htopo] at hrun
    cases hrun
  | some L =>
    rw [htopo] at hrun
    have hst : st = runList g F L [] := by
      simpa using hrun.symm
    subst hst
    have hkeys : (runList g F L []).map Prod.fst = L := by
      rw [keys_runList]
      simp
    have hndL : L.Nodup := topo_nodup htopo
    have hkeysnd : ((runList g F L []).map Prod.fst).Nodup := by
      rw [hkeys]
      exact hndL
    have hinv : stInv g (runList g F L []) := by
      refine stInv_runList g F L [] ?_
      intro u d _ s hs _
      simp [lookupStatus] at hs
    have hb : ∀ u d : String, (u, d) ∈ g.edges →
        ∀ s, lookupStatus (runList g F L []) d = some s →
        s ≠ Status.skipped →
        lookupStatus (runList g F L []) u = some Status.succeeded :=
      fun u d he s hd hs => hinv u d he s hd hs
    have hstep : ∀ x y : String, (x, y) ∈ g.edges →
        (lookupStatus (runList g F L []) x = some Status.failed ∨
         lookupStatus (runList g F L []) x = some Status.skipped) →
        lookupStatus (runList g F L []) y = some Status.skipped := by
      intro x y he hx
      have hyK : y ∈ (runList g F L []).map Prod.fst := by
        rw [hkeys]
        exact topo_complete htopo y ((hreg (x, y) he).2)
      obtain ⟨sy, hsy⟩ := lookupStatus_isSome_of_mem hyK
      by_cases hss : sy = Status.skipped
      · rw [hss] at hsy
        exact hsy
      · have hsucc := hb x y he sy hsy hss
        rcases hx with hx | hx <;> rw [hsucc] at hx <;> simp at hx
    have ha : ∀ a d : String,
        lookupStatus (runList g F L []) a = some Status.failed →
        Reaches g a d →
        lookupStatus (runList g F L []) d = some Status.skipped := by
      intro a d hf hr
      induction hr with
      | single he => exact hstep _ _ he (Or.inl hf)
      | tail _ he ih => exact hstep _ _ he (Or.inr ih)
    have hc : ∀ m, m ∈ nodeNames g → m ∉ F → (∀ a ∈ F, ¬ Reaches g a m) →
        lookupStatus (runList g F L []) m = some Status.succeeded := by
      intro m hm hmF hnr
      have hmK : m ∈ (runList g F L []).map Prod.fst := by
        rw [hkeys]
        exact topo_complete htopo m hm
      obtain ⟨s, hsm⟩ := lookupStatus_isSome_of_mem hmK
      by_cases hss : s = Status.succeeded
      · rw [hss] at hsm
        exact hsm
      · exfalso
        have hsound := runList_sound g F L [] hndL
          (fun u d he hd => Or.inr (topo_edges_respected htopo u d he hd))
          (fun m' s' hm' _ => by simp [lookupStatus] at hm')
          m s hsm hss
        rcases hsound with hF | ⟨a, haF, har⟩
        · exact hmF hF
        · exact hnr a haF har
    exact ⟨fun a d hf hr =>
        ⟨ha a d hf hr, not_invoked_of_skipped hkeysnd (ha a d hf hr)⟩,
      hb, hc⟩

theorem failure_skips_reachable_downstream_witness :
    lookupStatus failLog "b" = some Status.skipped ∧
    "b" ∉ invokedTasks failLog ∧
    lookupStatus failLog "c" = some Status.succeeded := by
  have h := failure_skips_reachable_downstream failDag ["a"] failLog rfl
    (by decide)
  have hnr : ∀ a ∈ ["a"], ¬ Reaches failDag a "c" := by
    intro a _ hr
    cases hr with
    | single he => simp [failDag] at he
    | tail _ he => simp [failDag] at he
  obtain ⟨h1, h2⟩ := h.1 "a" "b" rfl (Reaches.single (by decide))
  exact ⟨h1, h2, h.2.2 "c" (by decide) (by decide) hnr⟩

/-- C9: the four-node scenario chain Create("ps1") → Get("ps1") →
Update("ps1") → Delete("ps1") runs exactly in the order
[Create, Get, Update, Delete] and each step's resolved identifier equals
"ps1"; and for the two independent chains of the example (no edges
between them), every interleaving that preserves the order within each
chain is consistent with all edges. -/
theorem scenario_chain_order_and_interleaving :
    (topologicalOrder scenarioChain = some ["create", "get", "update", "delete"]) ∧
    (execGraph scenarioChain =
      some [("create", Except.ok "ps1"), ("get", Except.ok "ps1"),
            ("update", Except.ok "ps1"), ("delete", Except.ok "ps1")]) ∧
    (∀ L : List String,
      ["product_set_create", "product_set_get", "product_set_update",
       "product_set_delete"] <+ L →
      ["product_create", "product_get", "product_update",
       "product_delete"] <+ L →
      respectsAll twoChains L) := by
  refine ⟨rfl, rfl, ?_⟩
  intro L h1 h2 e he
  simp only [twoChains, List.mem_cons, List.not_mem_nil, or_false] at he
  rcases he with he | he | he | he | he | he <;> subst he
  · exact List.Sublist.trans (by decide) h1
  · exact List.Sublist.trans (by decide) h1
  · exact List.Sublist.trans (by decide) h1
  · exact List.Sublist.trans (by decide) h2
  · exact List.Sublist.trans (by decide) h2
  · exact List.Sublist.trans (by decide) h2

theorem scenario_chain_order_and_interleaving_witness :
    respectsAll twoChains
      ["product_set_create", "product_create", "product_set_get",
       "product_get", "product_set_update", "product_update",
       "product_set_delete", "product_delete"] :=
  scenario_chain_order_and_interleaving.2.2
    ["product_set_create", "product_create", "product_set_get",
     "product_get", "product_set_update", "product_update",
     "product_set_delete", "product_delete"]
    (by decide) (by decide)

/-- C10: in the constructed example graph the two idempotence
demonstration create nodes have no edges to or from any other node: no
edge of the graph touches them, no node reaches them and they reach no
node (so no ordering holds between each of them and the corresponding
explicit-id chain), and any list consistent with all edges stays
consistent when either of them is inserted at any position. -/
theorem idempotence_create_nodes_isolated :
    (∀ e ∈ exampleDag.edges,
      e.1 ≠ "product_set_create_2_idempotence" ∧
      e.2 ≠ "product_set_create_2_idempotence" ∧
      e.1 ≠ "product_create_2_idempotence" ∧
      e.2 ≠ "product_create_2_idempotence") ∧
    (∀ y, (¬ Reaches exampleDag "product_set_create_2_idempotence" y) ∧
          (¬ Reaches exampleDag y "product_set_create_2_idempotence") ∧
          (¬ Reaches exampleDag "product_create_2_idempotence" y) ∧
          (¬ Reaches exampleDag y "product_create_2_idempotence")) ∧
    (∀ l₁ l₂, respectsAll exampleDag (l₁ ++ l₂) →
      respectsAll exampleDag
        (l₁ ++ "product_set_create_2_idempotence" :: l₂) ∧
      respectsAll exampleDag
        (l₁ ++ "product_create_2_idempotence" :: l₂)) := by
  have hiso1 : ∀ e ∈ exampleDag.edges,
      e.1 ≠ "product_set_create_2_idempotence" ∧
      e.2 ≠ "product_set_create_2_idempotence" := by decide
  have hiso2 : ∀ e ∈ exampleDag.edges,
      e.1 ≠ "product_create_2_idempotence" ∧
      e.2 ≠ "product_create_2_idempotence" := by decide
  refine ⟨fun e he => ⟨(hiso1 e he).1, (hiso1 e he).2,
      (hiso2 e he).1, (hiso2 e he).2⟩, ?_, ?_⟩
  · intro y
    obtain ⟨hn1, hn2⟩ := isolated_no_reaches hiso1 y
    obtain ⟨hn3, hn4⟩ := isolated_no_reaches hiso2 y
    exact ⟨hn1, hn2, hn3, hn4⟩
  · intro l₁ l₂ h
    exact ⟨insert_respects _ l₁ l₂ h, insert_respects _ l₁ l₂ h⟩

theorem idempotence_create_nodes_isolated_witness :
    respectsAll exampleDag
      ([] ++ "product_set_create_2_idempotence" :: exampleTopo) ∧
    respectsAll exampleDag
      ([] ++ "product_create_2_idempotence" :: exampleTopo) :=
  idempotence_create_nodes_isolated.2.2 [] exampleTopo (by decide)

end GcpVisionDag
